import Mathlib

/-!
Verification of the humba histogram library (`humba/core.py`) against its
natural-language specification.

The dispatch layer (`histogram`, `mwv_histogram` in `humba/core.py`) is
embedded directly from the source.  The numeric binning kernels live in
`humba/jits.py`, which is not part of the provided sources; they are
modelled from the specification (§4.1–§4.3), with floating-point numbers
modelled as exact rationals.
-/

/-- Numpy element dtypes relevant to the dispatch layer: the two supported
float precisions and representatives of unsupported dtypes. -/
inductive Dtype
  | float32
  | float64
  | int64
  | other
  deriving DecidableEq, Repr

/-- A (possibly multi-dimensional) numpy array as seen by `histogram`:
its shape, element dtype, and its (flattened) element data, with float
values modelled as rationals. -/
structure NpArray where
  shape : List Nat
  dtype : Dtype
  data : List ℚ
  deriving DecidableEq, Repr

/-- A two-dimensional numpy weight matrix as seen by `mwv_histogram`:
`rows` is `shape[0]` (one row per sample), `cols` the number of weight
variations, `data` the rows. -/
structure NpMatrix where
  rows : Nat
  cols : Nat
  dtype : Dtype
  data : List (List ℚ)
  deriving DecidableEq, Repr

/-- `ndarray.astype`: converts the array to the given dtype.  In the
exact-rational model the element values are preserved. -/
def NpArray.astype (a : NpArray) (d : Dtype) : NpArray :=
  { a with dtype := d }

/-- The synchronous failures `humba.core` can raise: the `assert`
statements (shape checks) and the `raise TypeError` branches. -/
inductive HumbaError
  | assertionError
  | typeError
  deriving DecidableEq, Repr

/-- The six jit-compiled kernel entry points of `humba.jits` that the
dispatch layer can select. -/
inductive KernelVariant
  | hfloat32
  | hfloat64
  | hfloat32_weighted
  | hfloat64_weighted
  | hfloat32_multiweights
  | hfloat64_multiweights
  deriving DecidableEq, Repr

/-- `np.linspace lo hi n`: `n` evenly spaced points from `lo` to `hi`
inclusive (for `n = 1`, the single point `lo`, matching numpy; note that
in `ℚ` division by zero is zero). -/
def linspace (lo hi : ℚ) (n : ℕ) : List ℚ :=
  (List.range n).map (fun (i : ℕ) => lo + (i : ℚ) * ((hi - lo) / ((n : ℚ) - 1)))

/-- Modelled from the spec (§4.1, missing source `humba/jits.py`): the
bin-index formula `idx = floor((x - lo) / bin_width)` with
`bin_width = (hi - lo) / bins`. -/
def binIdx (lo hi : ℚ) (bins : ℕ) (x : ℚ) : ℤ :=
  Int.floor ((x - lo) / ((hi - lo) / (bins : ℚ)))

/-- Modelled from the spec (§4.1, missing source `humba/jits.py`): the
fate of a computed bin index.  In-range indices land in their own bin;
underflow/overflow are folded into bin `0` / bin `bins-1` when `flow` is
true and dropped (`none`) otherwise. -/
def resolveIdx (bins : ℕ) (flow : Bool) (idx : ℤ) : Option ℕ :=
  if 0 ≤ idx ∧ idx < (bins : ℤ) then some idx.toNat
  else if flow then some (if idx < 0 then 0 else bins - 1)
  else none

/-- Add `w` to entry `i` of a bin-content list (no-op out of range, which
never happens for resolved indices when `bins ≥ 1`). -/
def addAt (l : List ℚ) (i : ℕ) (w : ℚ) : List ℚ :=
  l.set i (l.getD i 0 + w)

/-- Add the weight row `w` elementwise into row `i` of a bin-content
matrix. -/
def addRowAt (m : List (List ℚ)) (i : ℕ) (w : List ℚ) : List (List ℚ) :=
  m.set i (List.zipWith (· + ·) (m.getD i []) w)

/-- Modelled from the spec (§4.1): one step of the unweighted kernel's
pass — place sample `x` and increment its bin by `1`. -/
def cstep (bins : ℕ) (lo hi : ℚ) (flow : Bool) (acc : List ℚ) (x : ℚ) : List ℚ :=
  match resolveIdx bins flow (binIdx lo hi bins x) with
  | some i => addAt acc i 1
  | none => acc

/-- Modelled from the spec (§4.1, missing source `humba/jits.py`): the
unweighted binning kernel `bin_counts`. -/
def bin_counts (samples : List ℚ) (bins : ℕ) (lo hi : ℚ) (flow : Bool) : List ℚ :=
  samples.foldl (cstep bins lo hi flow) (List.replicate bins 0)

/-- Modelled from the spec (§4.2): one step of the single-weight kernel's
pass over a (sample, weight) pair — accumulate the weight and the squared
weight into the sample's bin. -/
def wstep (bins : ℕ) (lo hi : ℚ) (flow : Bool) (acc : List ℚ × List ℚ)
    (p : ℚ × ℚ) : List ℚ × List ℚ :=
  match resolveIdx bins flow (binIdx lo hi bins p.1) with
  | some i => (addAt acc.1 i p.2, addAt acc.2 i (p.2 * p.2))
  | none => acc

/-- Modelled from the spec (§4.2, missing source `humba/jits.py`): the
single-weight binning kernel.  Returns `(counts, sumw2)`; the error array
of the spec is `sumw2.map Real.sqrt`. -/
def bin_weighted (samples weights : List ℚ) (bins : ℕ) (lo hi : ℚ)
    (flow : Bool) : List ℚ × List ℚ :=
  (samples.zip weights).foldl (wstep bins lo hi flow)
    (List.replicate bins 0, List.replicate bins 0)

/-- Modelled from the spec (§4.3): one step of the multi-weight kernel's
pass over a (sample, weight-row) pair — resolve the bin once and
accumulate every column's weight and squared weight. -/
def mstep (bins : ℕ) (lo hi : ℚ) (flow : Bool)
    (acc : List (List ℚ) × List (List ℚ)) (p : ℚ × List ℚ) :
    List (List ℚ) × List (List ℚ) :=
  match resolveIdx bins flow (binIdx lo hi bins p.1) with
  | some i => (addRowAt acc.1 i p.2, addRowAt acc.2 i (p.2.map (fun a => a * a)))
  | none => acc

/-- Modelled from the spec (§4.3, missing source `humba/jits.py`): the
multi-weight binning kernel on an `(N, M)` weight matrix given as rows.
Returns `(counts, sumw2)`, both `bins × M` matrices; the error matrix of
the spec is `sumw2` with `Real.sqrt` applied entrywise. -/
def bin_multiweighted (samples : List ℚ) (weights : List (List ℚ))
    (bins M : ℕ) (lo hi : ℚ) (flow : Bool) :
    List (List ℚ) × List (List ℚ) :=
  (samples.zip weights).foldl (mstep bins lo hi flow)
    (List.replicate bins (List.replicate M 0),
     List.replicate bins (List.replicate M 0))

/-- Column `j` of a bin-content matrix. -/
def col (m : List (List ℚ)) (j : ℕ) : List ℚ :=
  m.map (fun r => r.getD j 0)

/-- The validation / kernel-selection prefix of `histogram`
(`core.py` lines 60–68 and 70–77): checks the shape when weights are
present (`assert x.shape == weights.shape`), selects the kernel variant
from `x.dtype`, and casts the weights with `weights.astype(x.dtype)`.
Returns the selected variant together with the arrays actually handed to
the kernel, or the error raised before any kernel is invoked. -/
def histogramDispatch (x : NpArray) (weights : Option NpArray) :
    Except HumbaError (KernelVariant × NpArray × Option NpArray) :=
  match weights with
  | some w =>
    if x.shape = w.shape then
      if x.dtype = Dtype.float64 then
        Except.ok (KernelVariant.hfloat64_weighted, x, some (w.astype x.dtype))
      else if x.dtype = Dtype.float32 then
        Except.ok (KernelVariant.hfloat32_weighted, x, some (w.astype x.dtype))
      else Except.error HumbaError.typeError
    else Except.error HumbaError.assertionError
  | none =>
    if x.dtype = Dtype.float64 then
      Except.ok (KernelVariant.hfloat64, x, none)
    else if x.dtype = Dtype.float32 then
      Except.ok (KernelVariant.hfloat32, x, none)
    else Except.error HumbaError.typeError

/-- The validation / kernel-selection prefix of `mwv_histogram`
(`core.py` lines 124–131): checks `x.shape[0] == weights.shape[0]`,
selects the kernel variant from `weights.dtype`, and casts the samples
with `x.astype(weights.dtype)`. -/
def mwvDispatch (x : NpArray) (weights : NpMatrix) :
    Except HumbaError (KernelVariant × NpArray × NpMatrix) :=
  if x.shape.headD 0 = weights.rows then
    if weights.dtype = Dtype.float64 then
      Except.ok (KernelVariant.hfloat64_multiweights, x.astype weights.dtype, weights)
    else if weights.dtype = Dtype.float32 then
      Except.ok (KernelVariant.hfloat32_multiweights, x.astype weights.dtype, weights)
    else Except.error HumbaError.typeError
  else Except.error HumbaError.assertionError

/-- The triple returned by `histogram`: the selected kernel variant (for
traceability), the counts, the optional sum-of-squared-weights array
(whose entrywise square root is the returned error array), and the
edges. -/
structure HistResult where
  variant : KernelVariant
  counts : List ℚ
  sumw2 : Option (List ℚ)
  edges : List ℚ
  deriving DecidableEq, Repr

/-- `humba.core.histogram` (`core.py` lines 59–78): computes the edges
with `np.linspace(range[0], range[1], bins + 1)`, dispatches, and runs
the selected kernel. -/
def histogram (x : NpArray) (bins : ℕ) (lo hi : ℚ) (weights : Option NpArray)
    (flow : Bool) : Except HumbaError HistResult :=
  let edges := linspace lo hi (bins + 1)
  match histogramDispatch x weights with
  | Except.error e => Except.error e
  | Except.ok (v, x', some w') =>
    let r := bin_weighted x'.data w'.data bins lo hi flow
    Except.ok ⟨v, r.1, some r.2, edges⟩
  | Except.ok (v, x', none) =>
    Except.ok ⟨v, bin_counts x'.data bins lo hi flow, none, edges⟩

/-- The triple returned by `mwv_histogram`: the selected kernel variant,
the counts matrix, the sum-of-squared-weights matrix (whose entrywise
square root is the returned error matrix), and the edges. -/
structure MwvResult where
  variant : KernelVariant
  counts : List (List ℚ)
  sumw2 : List (List ℚ)
  edges : List ℚ
  deriving DecidableEq, Repr

/-- `humba.core.mwv_histogram` (`core.py` lines 123–132): computes the
edges, dispatches, and runs the selected multi-weight kernel. -/
def mwv_histogram (x : NpArray) (weights : NpMatrix) (bins : ℕ) (lo hi : ℚ)
    (flow : Bool) : Except HumbaError MwvResult :=
  let edges := linspace lo hi (bins + 1)
  match mwvDispatch x weights with
  | Except.error e => Except.error e
  | Except.ok (v, x', w') =>
    let r := bin_multiweighted x'.data w'.data bins w'.cols lo hi flow
    Except.ok ⟨v, r.1, r.2, edges⟩

/-! ### Helper lemmas -/

lemma mstep_length (bins : ℕ) (lo hi : ℚ) (flow : Bool)
    (acc : List (List ℚ) × List (List ℚ)) (p : ℚ × List ℚ) :
    (mstep bins lo hi flow acc p).1.length = acc.1.length ∧
    (mstep bins lo hi flow acc p).2.length = acc.2.length := by
  unfold mstep
  split <;> simp [addRowAt]

lemma foldl_mstep_length (bins : ℕ) (lo hi : ℚ) (flow : Bool)
    (ps : List (ℚ × List ℚ)) :
    ∀ acc : List (List ℚ) × List (List ℚ),
      (ps.foldl (mstep bins lo hi flow) acc).1.length = acc.1.length ∧
      (ps.foldl (mstep bins lo hi flow) acc).2.length = acc.2.length := by
  induction ps with
  | nil => intro acc; exact ⟨rfl, rfl⟩
  | cons p ps ih =>
    intro acc
    simp only [List.foldl_cons]
    have h := ih (mstep bins lo hi flow acc p)
    have h' := mstep_length bins lo hi flow acc p
    exact ⟨h.1.trans h'.1, h.2.trans h'.2⟩

lemma bin_multiweighted_lengths (samples : List ℚ) (W : List (List ℚ))
    (bins M : ℕ) (lo hi : ℚ) (flow : Bool) :
    (bin_multiweighted samples W bins M lo hi flow).1.length = bins ∧
    (bin_multiweighted samples W bins M lo hi flow).2.length = bins := by
  unfold bin_multiweighted
  have h := foldl_mstep_length bins lo hi flow (samples.zip W)
    (List.replicate bins (List.replicate M 0), List.replicate bins (List.replicate M 0))
  simpa using h

lemma histogramDispatch_weights (x : NpArray) (weights : Option NpArray)
    (v : KernelVariant) (x' : NpArray) (ow : Option NpArray)
    (h : histogramDispatch x weights = Except.ok (v, x', ow)) :
    ow.isSome = weights.isSome := by
  cases weights with
  | none =>
    simp only [histogramDispatch] at h
    split_ifs at h <;> simp_all
  | some w =>
    simp only [histogramDispatch] at h
    split_ifs at h
    · simp only [Except.ok.injEq, Prod.mk.injEq] at h
      obtain ⟨-, -, h3⟩ := h
      rw [← h3]
      rfl
    · simp only [Except.ok.injEq, Prod.mk.injEq] at h
      obtain ⟨-, -, h3⟩ := h
      rw [← h3]
      rfl

/-! ### Claims -/

/-- C1: for every `histogram` call that returns, the error output (the
sum-of-squared-weights array, whose square root is the error array) is
present if and only if weights were supplied; and `mwv_histogram` always
returns an error array (of length `bins`). -/
theorem C1_error_present_iff_weighted :
    (∀ (x : NpArray) (bins : ℕ) (lo hi : ℚ) (weights : Option NpArray)
        (flow : Bool) (r : HistResult),
      histogram x bins lo hi weights flow = Except.ok r →
        (r.sumw2.isSome ↔ weights.isSome))
    ∧ (∀ (x : NpArray) (w : NpMatrix) (bins : ℕ) (lo hi : ℚ) (flow : Bool)
        (r : MwvResult),
      mwv_histogram x w bins lo hi flow = Except.ok r →
        r.sumw2.length = bins) := by
  constructor
  · intro x bins lo hi weights flow r h
    rcases hd : histogramDispatch x weights with e | ⟨v, x', ow⟩
    · simp only [histogram, hd] at h
      exact absurd h (by simp)
    · have hw := histogramDispatch_weights x weights v x' ow hd
      cases ow with
      | none =>
        simp only [histogram, hd] at h
        simp only [Except.ok.injEq] at h
        subst h
        simp_all
      | some w' =>
        simp only [histogram, hd] at h
        simp only [Except.ok.injEq] at h
        subst h
        simp_all
  · intro x w bins lo hi flow r h
    rcases hd : mwvDispatch x w with e | ⟨v, x', w'⟩
    · simp only [mwv_histogram, hd] at h
      exact absurd h (by simp)
    · simp only [mwv_histogram, hd, Except.ok.injEq] at h
      subst h
      exact (bin_multiweighted_lengths x'.data w'.data bins w'.cols lo hi flow).2

set_option maxHeartbeats 1000000 in
/-- C1 witness: a concrete unweighted call returns no error array, a
concrete weighted call returns one, and a concrete `mwv_histogram` call
returns an error array of length `bins`. -/
theorem C1_witness :
    ((⟨KernelVariant.hfloat64, [0, 1], none, [0, 1, 2]⟩ : HistResult).sumw2.isSome
        ↔ (none : Option NpArray).isSome)
    ∧ ((⟨KernelVariant.hfloat64_weighted, [0, 3], some [0, 9], [0, 1, 2]⟩ : HistResult).sumw2.isSome
        ↔ (some (⟨[1], Dtype.float64, [3]⟩ : NpArray)).isSome)
    ∧ (⟨KernelVariant.hfloat64_multiweights, [[0], [3]], [[0], [9]], [0, 1, 2]⟩ : MwvResult).sumw2.length = 2 := by
  refine ⟨?_, ?_, ?_⟩
  · exact C1_error_present_iff_weighted.1 ⟨[1], Dtype.float64, [1]⟩ 2 0 2 none false _
      (by norm_num [histogram, histogramDispatch, bin_counts, cstep, resolveIdx, binIdx, addAt,
        linspace, List.range_succ, List.replicate_succ, List.set, List.getD, Int.toNat])
  · exact C1_error_present_iff_weighted.1 ⟨[1], Dtype.float64, [1]⟩ 2 0 2
      (some ⟨[1], Dtype.float64, [3]⟩) false _
      (by norm_num [histogram, histogramDispatch, bin_weighted, wstep, resolveIdx, binIdx, addAt,
        NpArray.astype, List.zip, List.zipWith, linspace, List.range_succ, List.replicate_succ,
        List.set, List.getD, Int.toNat])
  · have h : mwv_histogram ⟨[1], Dtype.float64, [1]⟩ ⟨1, 1, Dtype.float64, [[3]]⟩ 2 0 2 false
        = Except.ok ⟨KernelVariant.hfloat64_multiweights, [[0], [3]], [[0], [9]], [0, 1, 2]⟩ := by
      simp only [mwv_histogram, mwvDispatch, NpArray.astype]
      norm_num [bin_multiweighted, mstep, resolveIdx, binIdx, addRowAt, List.zip, List.zipWith,
        linspace, List.range_succ, List.replicate_succ, List.set, List.getD, Int.toNat]
    exact C1_error_present_iff_weighted.2 ⟨[1], Dtype.float64, [1]⟩
      ⟨1, 1, Dtype.float64, [[3]]⟩ 2 0 2 false _ h

/-- C2: the dispatch layer casts the smaller-role array to the other's
precision before calling the kernel, asymmetrically: `histogram` hands the
kernel `weights.astype(x.dtype)` (weights cast to the samples' dtype, data
unchanged, samples untouched), while `mwv_histogram` hands it
`x.astype(weights.dtype)` (samples cast to the weights' dtype, data
unchanged, weights untouched). -/
theorem C2_asymmetric_casting :
    (∀ (x w : NpArray) (v : KernelVariant) (x' w' : NpArray),
      histogramDispatch x (some w) = Except.ok (v, x', some w') →
        w' = w.astype x.dtype ∧ w'.dtype = x.dtype ∧ w'.data = w.data ∧ x' = x)
    ∧ (∀ (x : NpArray) (w : NpMatrix) (v : KernelVariant) (x' : NpArray) (w' : NpMatrix),
      mwvDispatch x w = Except.ok (v, x', w') →
        x' = x.astype w.dtype ∧ x'.dtype = w.dtype ∧ x'.data = x.data ∧ w' = w) := by
  constructor
  · intro x w v x' w' h
    simp only [histogramDispatch] at h
    split_ifs at h with h1 h2 h3 <;>
      simp only [Except.ok.injEq, Prod.mk.injEq, Option.some.injEq] at h
    · obtain ⟨-, hx, hw⟩ := h
      subst hx
      rw [← hw, h2]
      simp [NpArray.astype]
    · obtain ⟨-, hx, hw⟩ := h
      subst hx
      rw [← hw, h3]
      simp [NpArray.astype]
  · intro x w v x' w' h
    simp only [mwvDispatch] at h
    split_ifs at h with h1 h2 h3 <;>
      simp only [Except.ok.injEq, Prod.mk.injEq] at h
    · obtain ⟨-, hx, hw⟩ := h
      rw [← hx, ← hw, h2]
      simp [NpArray.astype]
    · obtain ⟨-, hx, hw⟩ := h
      rw [← hx, ← hw, h3]
      simp [NpArray.astype]

/-- C2 witness: concrete mixed-precision calls; `histogram` casts the
float32 weights to float64 (the samples' dtype), `mwv_histogram` casts the
float64 samples to float32 (the weights' dtype). -/
theorem C2_witness :
    ((⟨[1], Dtype.float64, [2]⟩ : NpArray)
        = (⟨[1], Dtype.float32, [2]⟩ : NpArray).astype
            (⟨[1], Dtype.float64, [5]⟩ : NpArray).dtype
      ∧ (⟨[1], Dtype.float64, [2]⟩ : NpArray).dtype
          = (⟨[1], Dtype.float64, [5]⟩ : NpArray).dtype
      ∧ (⟨[1], Dtype.float64, [2]⟩ : NpArray).data
          = (⟨[1], Dtype.float32, [2]⟩ : NpArray).data
      ∧ (⟨[1], Dtype.float64, [5]⟩ : NpArray) = ⟨[1], Dtype.float64, [5]⟩)
    ∧ ((⟨[2], Dtype.float32, [5, 6]⟩ : NpArray)
        = (⟨[2], Dtype.float64, [5, 6]⟩ : NpArray).astype
            (⟨2, 1, Dtype.float32, [[1], [2]]⟩ : NpMatrix).dtype
      ∧ (⟨[2], Dtype.float32, [5, 6]⟩ : NpArray).dtype
          = (⟨2, 1, Dtype.float32, [[1], [2]]⟩ : NpMatrix).dtype
      ∧ (⟨[2], Dtype.float32, [5, 6]⟩ : NpArray).data
          = (⟨[2], Dtype.float64, [5, 6]⟩ : NpArray).data
      ∧ (⟨2, 1, Dtype.float32, [[1], [2]]⟩ : NpMatrix) = ⟨2, 1, Dtype.float32, [[1], [2]]⟩) := by
  constructor
  · exact C2_asymmetric_casting.1 ⟨[1], Dtype.float64, [5]⟩ ⟨[1], Dtype.float32, [2]⟩
      KernelVariant.hfloat64_weighted ⟨[1], Dtype.float64, [5]⟩ ⟨[1], Dtype.float64, [2]⟩
      (by simp [histogramDispatch, NpArray.astype])
  · exact C2_asymmetric_casting.2 ⟨[2], Dtype.float64, [5, 6]⟩ ⟨2, 1, Dtype.float32, [[1], [2]]⟩
      KernelVariant.hfloat32_multiweights ⟨[2], Dtype.float32, [5, 6]⟩
      ⟨2, 1, Dtype.float32, [[1], [2]]⟩
      (by simp [mwvDispatch, NpArray.astype])

lemma histogram_ok_edges (x : NpArray) (bins : ℕ) (lo hi : ℚ)
    (weights : Option NpArray) (flow : Bool) (r : HistResult)
    (h : histogram x bins lo hi weights flow = Except.ok r) :
    r.edges = linspace lo hi (bins + 1) := by
  rcases hd : histogramDispatch x weights with e | ⟨v, x', ow⟩
  · simp only [histogram, hd] at h
    exact absurd h (by simp)
  · cases ow with
    | none =>
      simp only [histogram, hd, Except.ok.injEq] at h
      subst h
      rfl
    | some w' =>
      simp only [histogram, hd, Except.ok.injEq] at h
      subst h
      rfl

lemma mwv_histogram_ok_edges (x : NpArray) (w : NpMatrix) (bins : ℕ) (lo hi : ℚ)
    (flow : Bool) (r : MwvResult)
    (h : mwv_histogram x w bins lo hi flow = Except.ok r) :
    r.edges = linspace lo hi (bins + 1) := by
  rcases hd : mwvDispatch x w with e | ⟨v, x', w'⟩
  · simp only [mwv_histogram, hd] at h
    exact absurd h (by simp)
  · simp only [mwv_histogram, hd, Except.ok.injEq] at h
    subst h
    rfl

lemma linspace_length (lo hi : ℚ) (n : ℕ) : (linspace lo hi n).length = n := by
  rw [linspace, List.length_map, List.length_range]

lemma linspace_getD (lo hi : ℚ) (n i : ℕ) (h : i < n) :
    (linspace lo hi n).getD i 0 = lo + i * ((hi - lo) / ((n : ℚ) - 1)) := by
  have hlen : i < (linspace lo hi n).length := by
    rw [linspace_length]
    exact h
  rw [List.getD_eq_getElem _ _ hlen]
  simp only [linspace, List.getElem_map, List.getElem_range]

/-- C4: for every call that returns, the edge array is
`linspace lo hi (bins+1)`: it has exactly `bins + 1` elements, is evenly
spaced (`edges[i] = lo + i * (hi-lo)/bins`) running from `lo` to `hi`,
and is the third output of both `histogram` and `mwv_histogram`. -/
theorem C4_edges_linspace :
    ∀ (bins : ℕ) (lo hi : ℚ), 1 ≤ bins →
      ((linspace lo hi (bins + 1)).length = bins + 1
        ∧ (∀ i : ℕ, i ≤ bins →
            (linspace lo hi (bins + 1)).getD i 0 = lo + i * ((hi - lo) / (bins : ℚ)))
        ∧ (linspace lo hi (bins + 1)).getD 0 0 = lo
        ∧ (linspace lo hi (bins + 1)).getD bins 0 = hi)
      ∧ (∀ (x : NpArray) (weights : Option NpArray) (flow : Bool) (r : HistResult),
          histogram x bins lo hi weights flow = Except.ok r →
            r.edges = linspace lo hi (bins + 1))
      ∧ (∀ (x : NpArray) (w : NpMatrix) (flow : Bool) (r : MwvResult),
          mwv_histogram x w bins lo hi flow = Except.ok r →
            r.edges = linspace lo hi (bins + 1)) := by
  intro bins lo hi hb
  have hb0 : (bins : ℚ) ≠ 0 := Nat.cast_ne_zero.mpr (by omega)
  have hcast : ((bins : ℚ) + 1) - 1 = (bins : ℚ) := by ring
  have hgetD : ∀ i : ℕ, i ≤ bins →
      (linspace lo hi (bins + 1)).getD i 0 = lo + i * ((hi - lo) / (bins : ℚ)) := by
    intro i hi'
    rw [linspace_getD lo hi (bins + 1) i (by omega)]
    push_cast
    rw [hcast]
  refine ⟨⟨linspace_length lo hi (bins + 1), hgetD, ?_, ?_⟩, ?_, ?_⟩
  · rw [hgetD 0 (by omega)]
    simp
  · rw [hgetD bins (le_refl bins)]
    field_simp
  · intro x weights flow r h
    exact histogram_ok_edges x bins lo hi weights flow r h
  · intro x w flow r h
    exact mwv_histogram_ok_edges x w bins lo hi flow r h

set_option maxHeartbeats 1000000 in
/-- C4 witness: concrete instantiation at `bins = 2`, range `(0, 2)`,
with a concrete `histogram` call and a concrete `mwv_histogram` call. -/
theorem C4_witness :
    (linspace 0 2 3).length = 3
    ∧ (linspace 0 2 3).getD 0 0 = 0
    ∧ (linspace 0 2 3).getD 2 0 = 2
    ∧ (⟨KernelVariant.hfloat64, [0, 1], none, [0, 1, 2]⟩ : HistResult).edges = linspace 0 2 3
    ∧ (⟨KernelVariant.hfloat64_multiweights, [[0], [3]], [[0], [9]], [0, 1, 2]⟩ : MwvResult).edges
        = linspace 0 2 3 := by
  have hmain := C4_edges_linspace 2 0 2 (by omega)
  refine ⟨hmain.1.1, hmain.1.2.2.1, hmain.1.2.2.2, ?_, ?_⟩
  · exact hmain.2.1 ⟨[1], Dtype.float64, [1]⟩ none false _
      (by norm_num [histogram, histogramDispatch, bin_counts, cstep, resolveIdx, binIdx, addAt,
        linspace, List.range_succ, List.replicate_succ, List.set, List.getD, Int.toNat])
  · have h : mwv_histogram ⟨[1], Dtype.float64, [1]⟩ ⟨1, 1, Dtype.float64, [[3]]⟩ 2 0 2 false
        = Except.ok ⟨KernelVariant.hfloat64_multiweights, [[0], [3]], [[0], [9]], [0, 1, 2]⟩ := by
      simp only [mwv_histogram, mwvDispatch, NpArray.astype]
      norm_num [bin_multiweighted, mstep, resolveIdx, binIdx, addRowAt, List.zip, List.zipWith,
        linspace, List.range_succ, List.replicate_succ, List.set, List.getD, Int.toNat]
    exact hmain.2.2 ⟨[1], Dtype.float64, [1]⟩ ⟨1, 1, Dtype.float64, [[3]]⟩ false _ h

/-- C5: a shape mismatch (full-shape disagreement for weighted
`histogram`, `shape[0]` disagreement for `mwv_histogram`) makes the call
fail with the assertion error already at the dispatch stage, i.e. before
any kernel function is selected or invoked. -/
theorem C5_shape_mismatch_before_kernel :
    (∀ (x w : NpArray) (bins : ℕ) (lo hi : ℚ) (flow : Bool),
      x.shape ≠ w.shape →
        histogramDispatch x (some w) = Except.error HumbaError.assertionError
        ∧ histogram x bins lo hi (some w) flow = Except.error HumbaError.assertionError)
    ∧ (∀ (x : NpArray) (w : NpMatrix) (bins : ℕ) (lo hi : ℚ) (flow : Bool),
      x.shape.headD 0 ≠ w.rows →
        mwvDispatch x w = Except.error HumbaError.assertionError
        ∧ mwv_histogram x w bins lo hi flow = Except.error HumbaError.assertionError) := by
  constructor
  · intro x w bins lo hi flow hne
    have hd : histogramDispatch x (some w) = Except.error HumbaError.assertionError := by
      simp [histogramDispatch, hne]
    exact ⟨hd, by simp only [histogram, hd]⟩
  · intro x w bins lo hi flow hne
    have hd : mwvDispatch x w = Except.error HumbaError.assertionError := by
      rw [mwvDispatch, if_neg hne]
    exact ⟨hd, by simp only [mwv_histogram, hd]⟩

/-- C5 witness: concrete mismatched calls fail with the assertion error. -/
theorem C5_witness :
    (histogramDispatch ⟨[2], Dtype.float64, [1, 1]⟩ (some ⟨[3], Dtype.float64, [1, 1, 1]⟩)
        = Except.error HumbaError.assertionError
      ∧ histogram ⟨[2], Dtype.float64, [1, 1]⟩ 10 0 10
          (some ⟨[3], Dtype.float64, [1, 1, 1]⟩) false
        = Except.error HumbaError.assertionError)
    ∧ (mwvDispatch ⟨[2], Dtype.float64, [1, 1]⟩ ⟨3, 1, Dtype.float64, [[1], [1], [1]]⟩
        = Except.error HumbaError.assertionError
      ∧ mwv_histogram ⟨[2], Dtype.float64, [1, 1]⟩ ⟨3, 1, Dtype.float64, [[1], [1], [1]]⟩
          10 0 10 false
        = Except.error HumbaError.assertionError) :=
  ⟨C5_shape_mismatch_before_kernel.1 ⟨[2], Dtype.float64, [1, 1]⟩
      ⟨[3], Dtype.float64, [1, 1, 1]⟩ 10 0 10 false (by simp),
   C5_shape_mismatch_before_kernel.2 ⟨[2], Dtype.float64, [1, 1]⟩
      ⟨3, 1, Dtype.float64, [[1], [1], [1]]⟩ 10 0 10 false (by simp)⟩

/-- C9: the weight validation of `histogram` compares full shapes, not
element counts — any full-shape disagreement fails with the assertion
error even when the two arrays hold the same number of elements. -/
theorem C9_full_shape_comparison :
    ∀ (x w : NpArray) (bins : ℕ) (lo hi : ℚ) (flow : Bool),
      x.shape ≠ w.shape → x.shape.prod = w.shape.prod →
        histogram x bins lo hi (some w) flow = Except.error HumbaError.assertionError := by
  intro x w bins lo hi flow hne _
  have hd : histogramDispatch x (some w) = Except.error HumbaError.assertionError := by
    simp [histogramDispatch, hne]
  simp only [histogram, hd]

/-- C9 witness: samples of shape `(2,)` with weights of shape `(2, 1)` —
equal element counts, distinct shapes — are rejected. -/
theorem C9_witness :
    ([2] : List ℕ) ≠ [2, 1]
    ∧ ([2] : List ℕ).prod = ([2, 1] : List ℕ).prod
    ∧ histogram ⟨[2], Dtype.float64, [1, 1]⟩ 10 0 10
        (some ⟨[2, 1], Dtype.float64, [1, 1]⟩) false
      = Except.error HumbaError.assertionError :=
  ⟨by simp, by simp,
   C9_full_shape_comparison ⟨[2], Dtype.float64, [1, 1]⟩ ⟨[2, 1], Dtype.float64, [1, 1]⟩
     10 0 10 false (by simp) (by simp)⟩

lemma mwv_histogram_ok_of_dispatch {x : NpArray} {w : NpMatrix}
    {v : KernelVariant} {x' : NpArray} {w' : NpMatrix}
    (bins : ℕ) (lo hi : ℚ) (flow : Bool)
    (hd : mwvDispatch x w = Except.ok (v, x', w')) :
    mwv_histogram x w bins lo hi flow = Except.ok
      ⟨v, (bin_multiweighted x'.data w'.data bins w'.cols lo hi flow).1,
        (bin_multiweighted x'.data w'.data bins w'.cols lo hi flow).2,
        linspace lo hi (bins + 1)⟩ := by
  simp only [mwv_histogram, hd]

/-- C10: `mwv_histogram` never inspects the dtype of `x`: its result is
unchanged when `x`'s dtype is replaced arbitrarily; for supported
`weights` dtypes (with matching row counts) the call proceeds (casting
`x`), whereas `histogram` raises a type error on the same non-float
`x`. -/
theorem C10_mwv_ignores_x_dtype :
    ∀ (x : NpArray) (d : Dtype) (w : NpMatrix) (bins : ℕ) (lo hi : ℚ) (flow : Bool),
      mwv_histogram ⟨x.shape, d, x.data⟩ w bins lo hi flow
        = mwv_histogram x w bins lo hi flow
      ∧ (x.shape.headD 0 = w.rows →
          w.dtype = Dtype.float64 ∨ w.dtype = Dtype.float32 →
          ∃ r : MwvResult, mwv_histogram x w bins lo hi flow = Except.ok r)
      ∧ (x.dtype ≠ Dtype.float64 → x.dtype ≠ Dtype.float32 →
          histogram x bins lo hi none flow = Except.error HumbaError.typeError) := by
  intro x d w bins lo hi flow
  refine ⟨?_, ?_, ?_⟩
  · simp [mwv_histogram, mwvDispatch, NpArray.astype]
  · intro hshape hdtype
    rcases hdtype with h64 | h32
    · have hd : mwvDispatch x w
          = Except.ok (KernelVariant.hfloat64_multiweights, x.astype w.dtype, w) := by
        rw [mwvDispatch, if_pos hshape, if_pos h64]
      exact ⟨_, mwv_histogram_ok_of_dispatch bins lo hi flow hd⟩
    · by_cases h64 : w.dtype = Dtype.float64
      · have hd : mwvDispatch x w
            = Except.ok (KernelVariant.hfloat64_multiweights, x.astype w.dtype, w) := by
          rw [mwvDispatch, if_pos hshape, if_pos h64]
        exact ⟨_, mwv_histogram_ok_of_dispatch bins lo hi flow hd⟩
      · have hd : mwvDispatch x w
            = Except.ok (KernelVariant.hfloat32_multiweights, x.astype w.dtype, w) := by
          rw [mwvDispatch, if_pos hshape, if_neg h64, if_pos h32]
        exact ⟨_, mwv_histogram_ok_of_dispatch bins lo hi flow hd⟩
  · intro h64 h32
    have hd : histogramDispatch x none = Except.error HumbaError.typeError := by
      simp only [histogramDispatch]
      rw [if_neg h64, if_neg h32]
    simp only [histogram, hd]

/-- C10 witness: an int64 sample array with float32 weights — the
`mwv_histogram` result equals the one with float32 samples, the call
succeeds, and `histogram` rejects the same array. -/
theorem C10_witness :
    mwv_histogram ⟨[1], Dtype.float32, [1]⟩ ⟨1, 1, Dtype.float32, [[3]]⟩ 2 0 2 false
      = mwv_histogram ⟨[1], Dtype.int64, [1]⟩ ⟨1, 1, Dtype.float32, [[3]]⟩ 2 0 2 false
    ∧ (∃ r : MwvResult,
        mwv_histogram ⟨[1], Dtype.int64, [1]⟩ ⟨1, 1, Dtype.float32, [[3]]⟩ 2 0 2 false
          = Except.ok r)
    ∧ histogram ⟨[1], Dtype.int64, [1]⟩ 2 0 2 none false
        = Except.error HumbaError.typeError := by
  have h := C10_mwv_ignores_x_dtype ⟨[1], Dtype.int64, [1]⟩ Dtype.float32
    ⟨1, 1, Dtype.float32, [[3]]⟩ 2 0 2 false
  exact ⟨h.1, h.2.1 (by simp) (Or.inr rfl), h.2.2 (by simp) (by simp)⟩

/-- C3 counterexample: an input whose governing dtype (`x.dtype` for
`histogram`) is int64 — neither float32 nor float64 — together with a
shape mismatch raises the assertion error, not the claimed type error:
the shape assertion precedes the dtype check. -/
theorem C3_counterexample :
    histogram ⟨[1], Dtype.int64, [0]⟩ 10 0 10 (some ⟨[2], Dtype.int64, [0, 0]⟩) false
      = Except.error HumbaError.assertionError
    ∧ histogram ⟨[1], Dtype.int64, [0]⟩ 10 0 10 (some ⟨[2], Dtype.int64, [0, 0]⟩) false
      ≠ Except.error HumbaError.typeError := by
  have hd : histogramDispatch ⟨[1], Dtype.int64, [0]⟩ (some ⟨[2], Dtype.int64, [0, 0]⟩)
      = Except.error HumbaError.assertionError := by
    simp [histogramDispatch]
  constructor
  · simp only [histogram, hd]
  · simp only [histogram, hd]
    simp

/-- C3 (amended): for inputs whose governing dtype is unsupported AND
which pass the preceding shape assertion, the call raises the type error
already at the dispatch stage (before any kernel variant exists to be
invoked); when the shape assertion fails it raises the assertion error
first.  For float32 the 32-bit kernel variant is selected and for float64
the 64-bit variant. -/
theorem C3_unsupported_dtype_amended :
    (∀ (x : NpArray) (bins : ℕ) (lo hi : ℚ) (weights : Option NpArray) (flow : Bool),
      x.dtype ≠ Dtype.float64 → x.dtype ≠ Dtype.float32 →
      (weights = none ∨ ∃ w, weights = some w ∧ x.shape = w.shape) →
        histogramDispatch x weights = Except.error HumbaError.typeError
        ∧ histogram x bins lo hi weights flow = Except.error HumbaError.typeError)
    ∧ (∀ (x : NpArray) (w : NpMatrix) (bins : ℕ) (lo hi : ℚ) (flow : Bool),
      w.dtype ≠ Dtype.float64 → w.dtype ≠ Dtype.float32 →
      x.shape.headD 0 = w.rows →
        mwvDispatch x w = Except.error HumbaError.typeError
        ∧ mwv_histogram x w bins lo hi flow = Except.error HumbaError.typeError)
    ∧ (∀ (x : NpArray) (weights : Option NpArray) (v : KernelVariant)
        (x' : NpArray) (ow : Option NpArray),
      histogramDispatch x weights = Except.ok (v, x', ow) →
        (x.dtype = Dtype.float32 →
          v = KernelVariant.hfloat32 ∨ v = KernelVariant.hfloat32_weighted)
        ∧ (x.dtype = Dtype.float64 →
          v = KernelVariant.hfloat64 ∨ v = KernelVariant.hfloat64_weighted))
    ∧ (∀ (x : NpArray) (w : NpMatrix) (v : KernelVariant) (x' : NpArray) (w' : NpMatrix),
      mwvDispatch x w = Except.ok (v, x', w') →
        (w.dtype = Dtype.float32 → v = KernelVariant.hfloat32_multiweights)
        ∧ (w.dtype = Dtype.float64 → v = KernelVariant.hfloat64_multiweights)) := by
  refine ⟨?_, ?_, ?_, ?_⟩
  · intro x bins lo hi weights flow h64 h32 hshape
    have hd : histogramDispatch x weights = Except.error HumbaError.typeError := by
      rcases hshape with rfl | ⟨w, rfl, hsw⟩
      · simp only [histogramDispatch]
        rw [if_neg h64, if_neg h32]
      · simp only [histogramDispatch]
        rw [if_pos hsw, if_neg h64, if_neg h32]
    exact ⟨hd, by simp only [histogram, hd]⟩
  · intro x w bins lo hi flow h64 h32 hshape
    have hd : mwvDispatch x w = Except.error HumbaError.typeError := by
      rw [mwvDispatch, if_pos hshape, if_neg h64, if_neg h32]
    exact ⟨hd, by simp only [mwv_histogram, hd]⟩
  · intro x weights v x' ow h
    cases weights with
    | none =>
      simp only [histogramDispatch] at h
      split_ifs at h with h64 h32 <;>
        simp only [Except.ok.injEq, Prod.mk.injEq] at h <;>
        obtain ⟨hv, -⟩ := h <;>
        subst hv <;>
        constructor <;>
        intro hdt <;>
        simp_all
    | some w =>
      simp only [histogramDispatch] at h
      split_ifs at h with hs h64 h32 <;>
        simp only [Except.ok.injEq, Prod.mk.injEq] at h <;>
        obtain ⟨hv, -⟩ := h <;>
        subst hv <;>
        constructor <;>
        intro hdt <;>
        simp_all
  · intro x w v x' w' h
    simp only [mwvDispatch] at h
    split_ifs at h with hs h64 h32 <;>
      simp only [Except.ok.injEq, Prod.mk.injEq] at h <;>
      obtain ⟨hv, -⟩ := h <;>
      subst hv <;>
      constructor <;>
      intro hdt <;>
      simp_all

/-- C3 witness: concrete applications of the amended claim — an int64
unweighted call and a shape-valid int64 weighted call raise the type
error; float32/float64 inputs select the matching kernel variants. -/
theorem C3_witness :
    (histogramDispatch ⟨[1], Dtype.int64, [0]⟩ none = Except.error HumbaError.typeError
      ∧ histogram ⟨[1], Dtype.int64, [0]⟩ 10 0 10 none false
          = Except.error HumbaError.typeError)
    ∧ (mwvDispatch ⟨[1], Dtype.float64, [0]⟩ ⟨1, 1, Dtype.int64, [[1]]⟩
          = Except.error HumbaError.typeError
      ∧ mwv_histogram ⟨[1], Dtype.float64, [0]⟩ ⟨1, 1, Dtype.int64, [[1]]⟩ 10 0 10 false
          = Except.error HumbaError.typeError)
    ∧ ((Dtype.float32 = Dtype.float32 →
          KernelVariant.hfloat32 = KernelVariant.hfloat32
            ∨ KernelVariant.hfloat32 = KernelVariant.hfloat32_weighted)
      ∧ (Dtype.float32 = Dtype.float64 →
          KernelVariant.hfloat32 = KernelVariant.hfloat64
            ∨ KernelVariant.hfloat32 = KernelVariant.hfloat64_weighted))
    ∧ ((Dtype.float64 = Dtype.float32 →
          KernelVariant.hfloat64_multiweights = KernelVariant.hfloat32_multiweights)
      ∧ (Dtype.float64 = Dtype.float64 →
          KernelVariant.hfloat64_multiweights = KernelVariant.hfloat64_multiweights)) := by
  refine ⟨?_, ?_, ?_, ?_⟩
  · exact C3_unsupported_dtype_amended.1 ⟨[1], Dtype.int64, [0]⟩ 10 0 10 none false
      (by simp) (by simp) (Or.inl rfl)
  · exact C3_unsupported_dtype_amended.2.1 ⟨[1], Dtype.float64, [0]⟩ ⟨1, 1, Dtype.int64, [[1]]⟩
      10 0 10 false (by simp) (by simp) (by simp)
  · exact C3_unsupported_dtype_amended.2.2.1 ⟨[1], Dtype.float32, [0]⟩ none
      KernelVariant.hfloat32 ⟨[1], Dtype.float32, [0]⟩ none (by simp [histogramDispatch])
  · exact C3_unsupported_dtype_amended.2.2.2 ⟨[1], Dtype.float64, [0]⟩
      ⟨1, 1, Dtype.float64, [[1]]⟩ KernelVariant.hfloat64_multiweights
      (NpArray.astype ⟨[1], Dtype.float64, [0]⟩ Dtype.float64) ⟨1, 1, Dtype.float64, [[1]]⟩
      (by simp [mwvDispatch])

lemma binIdx_lo (lo hi : ℚ) (bins : ℕ) : binIdx lo hi bins lo = 0 := by
  simp [binIdx]

lemma binIdx_hi (lo hi : ℚ) (bins : ℕ) (h1 : 1 ≤ bins) (h2 : lo < hi) :
    binIdx lo hi bins hi = (bins : ℤ) := by
  unfold binIdx
  have hne : hi - lo ≠ 0 := sub_ne_zero.mpr (ne_of_gt h2)
  have hb : (bins : ℚ) ≠ 0 := Nat.cast_ne_zero.mpr (by omega)
  have hq : (hi - lo) / ((hi - lo) / (bins : ℚ)) = (bins : ℚ) := by
    field_simp
  rw [hq]
  exact Int.floor_natCast bins

lemma resolveIdx_zero (bins : ℕ) (flow : Bool) (h : 1 ≤ bins) :
    resolveIdx bins flow 0 = some 0 := by
  have hb : (0 : ℤ) < (bins : ℤ) := by exact_mod_cast Nat.lt_of_lt_of_le Nat.zero_lt_one h
  simp [resolveIdx, hb]

lemma resolveIdx_bins_true (bins : ℕ) :
    resolveIdx bins true (bins : ℤ) = some (bins - 1) := by
  unfold resolveIdx
  rw [if_neg (by omega)]
  have hneg : ¬((bins : ℤ) < 0) := by omega
  simp [hneg]

lemma resolveIdx_bins_false (bins : ℕ) :
    resolveIdx bins false (bins : ℤ) = none := by
  unfold resolveIdx
  rw [if_neg (by omega)]
  simp

lemma addAt_length (l : List ℚ) (i : ℕ) (w : ℚ) : (addAt l i w).length = l.length := by
  simp [addAt]

lemma addAt_sum (l : List ℚ) (i : ℕ) (w : ℚ) (h : i < l.length) :
    (addAt l i w).sum = l.sum + w := by
  induction l generalizing i with
  | nil => simp at h
  | cons a as ih =>
    cases i with
    | zero =>
      simp [addAt]
      ring
    | succ n =>
      have hn : n < as.length := by simpa using h
      have : addAt (a :: as) (n + 1) w = a :: addAt as n w := by
        simp [addAt]
      rw [this]
      simp only [List.sum_cons]
      rw [ih n hn]
      ring

lemma addAt_getD_self (l : List ℚ) (i : ℕ) (w : ℚ) (h : i < l.length) :
    (addAt l i w).getD i 0 = l.getD i 0 + w := by
  induction l generalizing i with
  | nil => simp at h
  | cons a as ih =>
    cases i with
    | zero => simp [addAt]
    | succ n =>
      have hn : n < as.length := by simpa using h
      have : addAt (a :: as) (n + 1) w = a :: addAt as n w := by
        simp [addAt]
      rw [this]
      simpa using ih n hn

lemma replicate_zero_getD (n i : ℕ) : (List.replicate n (0 : ℚ)).getD i 0 = 0 := by
  rcases Nat.lt_or_ge i n with h | h
  · rw [List.getD_eq_getElem _ _ (by simpa using h)]
    simp
  · rw [List.getD_eq_default _ _ (by simpa using h)]

/-- C6: a sample exactly equal to `lo` is placed in bin 0; a sample
exactly equal to `hi` has index `bins` by the formula and is treated as
overflow — folded into bin `bins-1` when flow is on, dropped entirely
when flow is off, never counted as an in-range value of the last bin. -/
theorem C6_boundary_policy :
    ∀ (bins : ℕ) (lo hi : ℚ) (flow : Bool), 1 ≤ bins → lo < hi →
      binIdx lo hi bins lo = 0
      ∧ resolveIdx bins flow (binIdx lo hi bins lo) = some 0
      ∧ (bin_counts [lo] bins lo hi flow).getD 0 0 = 1
      ∧ binIdx lo hi bins hi = (bins : ℤ)
      ∧ resolveIdx bins true (binIdx lo hi bins hi) = some (bins - 1)
      ∧ (bin_counts [hi] bins lo hi true).getD (bins - 1) 0 = 1
      ∧ resolveIdx bins false (binIdx lo hi bins hi) = none
      ∧ bin_counts [hi] bins lo hi false = List.replicate bins 0 := by
  intro bins lo hi flow hb hlt
  have hlo := binIdx_lo lo hi bins
  have hhi := binIdx_hi lo hi bins hb hlt
  have hr0 : resolveIdx bins flow (binIdx lo hi bins lo) = some 0 := by
    rw [hlo]
    exact resolveIdx_zero bins flow hb
  have hrt : resolveIdx bins true (binIdx lo hi bins hi) = some (bins - 1) := by
    rw [hhi]
    exact resolveIdx_bins_true bins
  have hrf : resolveIdx bins false (binIdx lo hi bins hi) = none := by
    rw [hhi]
    exact resolveIdx_bins_false bins
  refine ⟨hlo, hr0, ?_, hhi, hrt, ?_, hrf, ?_⟩
  · have hstep : bin_counts [lo] bins lo hi flow = addAt (List.replicate bins 0) 0 1 := by
      simp [bin_counts, cstep, hr0]
    rw [hstep, addAt_getD_self _ _ _ (by simpa using Nat.lt_of_lt_of_le Nat.zero_lt_one hb)]
    rw [replicate_zero_getD]
    ring
  · have hstep : bin_counts [hi] bins lo hi true = addAt (List.replicate bins 0) (bins - 1) 1 := by
      simp [bin_counts, cstep, hrt]
    rw [hstep, addAt_getD_self _ _ _ (by simp; omega)]
    rw [replicate_zero_getD]
    ring
  · simp [bin_counts, cstep, hrf]

/-- C6 witness: with `bins = 10`, range `(0, 10)`: the sample `0` lands
in bin 0, the sample `10` has index 10, folds into bin 9 under flow and
is dropped without flow. -/
theorem C6_witness :
    binIdx 0 10 10 0 = 0
    ∧ resolveIdx 10 false (binIdx 0 10 10 0) = some 0
    ∧ (bin_counts [0] 10 0 10 false).getD 0 0 = 1
    ∧ binIdx 0 10 10 10 = ((10 : ℕ) : ℤ)
    ∧ resolveIdx 10 true (binIdx 0 10 10 10) = some (10 - 1)
    ∧ (bin_counts [10] 10 0 10 true).getD (10 - 1) 0 = 1
    ∧ resolveIdx 10 false (binIdx 0 10 10 10) = none
    ∧ bin_counts [10] 10 0 10 false = List.replicate 10 0 :=
  C6_boundary_policy 10 0 10 false (by omega) (by norm_num)

lemma resolveIdx_true_lt (bins : ℕ) (h : 1 ≤ bins) (idx : ℤ) :
    ∃ i : ℕ, resolveIdx bins true idx = some i ∧ i < bins := by
  unfold resolveIdx
  by_cases hin : 0 ≤ idx ∧ idx < (bins : ℤ)
  · exact ⟨idx.toNat, by rw [if_pos hin], by omega⟩
  · rw [if_neg hin]
    by_cases hneg : idx < 0
    · exact ⟨0, by simp [hneg], by omega⟩
    · exact ⟨bins - 1, by simp [hneg], by omega⟩

lemma foldl_cstep_sum (bins : ℕ) (lo hi : ℚ) (h : 1 ≤ bins) :
    ∀ (samples : List ℚ) (acc : List ℚ), acc.length = bins →
      (samples.foldl (cstep bins lo hi true) acc).sum = acc.sum + samples.length := by
  intro samples
  induction samples with
  | nil =>
    intro acc hlen
    simp
  | cons s ss ih =>
    intro acc hlen
    simp only [List.foldl_cons, List.length_cons]
    obtain ⟨i, hres, hib⟩ := resolveIdx_true_lt bins h (binIdx lo hi bins s)
    have hstep : cstep bins lo hi true acc s = addAt acc i 1 := by
      simp [cstep, hres]
    rw [hstep, ih (addAt acc i 1) (by rw [addAt_length, hlen])]
    rw [addAt_sum _ _ _ (by rw [hlen]; exact hib)]
    push_cast
    ring

/-- C7: with `flow = true` the unweighted kernel drops no sample — the
sum over all bins of the counts equals the number of samples exactly. -/
theorem C7_flow_conservation :
    ∀ (samples : List ℚ) (bins : ℕ) (lo hi : ℚ), 1 ≤ bins →
      (bin_counts samples bins lo hi true).sum = (samples.length : ℚ) := by
  intro samples bins lo hi h
  unfold bin_counts
  rw [foldl_cstep_sum bins lo hi h samples (List.replicate bins 0) (by simp)]
  simp

/-- C7 witness: six samples (several out of range) with `bins = 10`,
range `(0, 10)`, `flow = true` — the counts sum to six. -/
theorem C7_witness :
    (bin_counts [-1, 0, 5, 99/10, 10, 11] 10 0 10 true).sum
      = (([-1, 0, 5, 99/10, 10, 11] : List ℚ).length : ℚ) :=
  C7_flow_conservation [-1, 0, 5, 99/10, 10, 11] 10 0 10 (by omega)

lemma col_cons (a : List ℚ) (m : List (List ℚ)) (j : ℕ) :
    col (a :: m) j = a.getD j 0 :: col m j := rfl

lemma col_set (m : List (List ℚ)) (i : ℕ) (r : List ℚ) (j : ℕ) :
    col (m.set i r) j = (col m j).set i (r.getD j 0) := by
  induction m generalizing i with
  | nil => simp [col]
  | cons a as ih =>
    cases i with
    | zero => simp [col]
    | succ n =>
      simp only [List.set_cons_succ, col_cons, ih]

lemma col_getD (m : List (List ℚ)) (i j : ℕ) :
    (col m j).getD i 0 = (m.getD i []).getD j 0 := by
  induction m generalizing i with
  | nil => simp [col]
  | cons a as ih =>
    cases i with
    | zero => simp [col_cons]
    | succ n =>
      simp only [col_cons, List.getD_cons_succ]
      exact ih n

lemma zipWith_add_getD (r w : List ℚ) (j : ℕ) (h1 : j < r.length) (h2 : j < w.length) :
    (List.zipWith (· + ·) r w).getD j 0 = r.getD j 0 + w.getD j 0 := by
  induction r generalizing w j with
  | nil => simp at h1
  | cons a as ih =>
    cases w with
    | nil => simp at h2
    | cons b bs =>
      cases j with
      | zero => simp
      | succ n =>
        simp only [List.zipWith_cons_cons, List.getD_cons_succ]
        exact ih bs n (by simpa using h1) (by simpa using h2)

lemma getD_mem_of_lt (m : List (List ℚ)) (i : ℕ) (h : i < m.length) :
    m.getD i [] ∈ m := by
  rw [List.getD_eq_getElem _ _ h]
  exact List.getElem_mem h

lemma col_addRowAt (m : List (List ℚ)) (i j M : ℕ) (w : List ℚ)
    (hm : ∀ r ∈ m, r.length = M) (hw : w.length = M) (hj : j < M) :
    col (addRowAt m i w) j = addAt (col m j) i (w.getD j 0) := by
  unfold addRowAt addAt
  rw [col_set]
  rcases Nat.lt_or_ge i m.length with h | h
  · have hrl : (m.getD i []).length = M := hm _ (getD_mem_of_lt m i h)
    rw [zipWith_add_getD _ _ _ (by rw [hrl]; exact hj) (by rw [hw]; exact hj)]
    rw [col_getD]
  · have hcl : (col m j).length ≤ i := by
      simpa [col] using h
    rw [List.set_eq_of_length_le hcl, List.set_eq_of_length_le hcl]

lemma addRowAt_rows (m : List (List ℚ)) (i : ℕ) (w : List ℚ) (M : ℕ)
    (hm : ∀ r ∈ m, r.length = M) (hw : w.length = M) :
    ∀ r ∈ addRowAt m i w, r.length = M := by
  rcases Nat.lt_or_ge i m.length with hlt | hge
  · intro r hr
    unfold addRowAt at hr
    rcases List.mem_or_eq_of_mem_set hr with h | h
    · exact hm r h
    · subst h
      rw [List.length_zipWith, hm _ (getD_mem_of_lt m i hlt), hw]
      exact Nat.min_self M
  · have hid : addRowAt m i w = m := by
      unfold addRowAt
      exact List.set_eq_of_length_le hge
    rw [hid]
    exact hm

lemma foldl_mstep_col (bins M j : ℕ) (lo hi : ℚ) (flow : Bool) (hj : j < M) :
    ∀ (ps : List (ℚ × List ℚ)) (A S : List (List ℚ)),
      (∀ r ∈ A, r.length = M) → (∀ r ∈ S, r.length = M) →
      (∀ p ∈ ps, p.2.length = M) →
      col ((ps.foldl (mstep bins lo hi flow) (A, S)).1) j
          = (ps.foldl (fun acc p => wstep bins lo hi flow acc (p.1, p.2.getD j 0))
              (col A j, col S j)).1
      ∧ col ((ps.foldl (mstep bins lo hi flow) (A, S)).2) j
          = (ps.foldl (fun acc p => wstep bins lo hi flow acc (p.1, p.2.getD j 0))
              (col A j, col S j)).2 := by
  intro ps
  induction ps with
  | nil =>
    intro A S hA hS hps
    exact ⟨rfl, rfl⟩
  | cons p ps ih =>
    intro A S hA hS hps
    simp only [List.foldl_cons]
    have hpw : p.2.length = M := hps p (by simp)
    have hps' : ∀ q ∈ ps, q.2.length = M := fun q hq => hps q (by simp [hq])
    cases hres : resolveIdx bins flow (binIdx lo hi bins p.1) with
    | none =>
      have hm : mstep bins lo hi flow (A, S) p = (A, S) := by
        simp [mstep, hres]
      have hw : wstep bins lo hi flow (col A j, col S j) (p.1, p.2.getD j 0)
          = (col A j, col S j) := by
        simp [wstep, hres]
      rw [hm, hw]
      exact ih A S hA hS hps'
    | some i =>
      have hm : mstep bins lo hi flow (A, S) p
          = (addRowAt A i p.2, addRowAt S i (p.2.map (fun a => a * a))) := by
        simp [mstep, hres]
      have hwstep : wstep bins lo hi flow (col A j, col S j) (p.1, p.2.getD j 0)
          = (addAt (col A j) i (p.2.getD j 0),
             addAt (col S j) i (p.2.getD j 0 * p.2.getD j 0)) := by
        simp [wstep, hres]
      have hsq_len : (p.2.map (fun a => a * a)).length = M := by
        simpa using hpw
      have hjp : j < p.2.length := by
        rw [hpw]
        exact hj
      have hsq_getD : (p.2.map (fun a => a * a)).getD j 0 = p.2.getD j 0 * p.2.getD j 0 := by
        rw [List.getD_eq_getElem _ _ (by simpa using hjp), List.getD_eq_getElem _ _ hjp]
        simp
      have hcolA : col (addRowAt A i p.2) j = addAt (col A j) i (p.2.getD j 0) :=
        col_addRowAt A i j M p.2 hA hpw hj
      have hcolS : col (addRowAt S i (p.2.map (fun a => a * a))) j
          = addAt (col S j) i (p.2.getD j 0 * p.2.getD j 0) := by
        rw [col_addRowAt S i j M _ hS hsq_len hj, hsq_getD]
      obtain ⟨e1, e2⟩ := ih (addRowAt A i p.2) (addRowAt S i (p.2.map (fun a => a * a)))
        (addRowAt_rows A i p.2 M hA hpw)
        (addRowAt_rows S i (p.2.map (fun a => a * a)) M hS hsq_len) hps'
      rw [hcolA, hcolS] at e1 e2
      rw [hm, hwstep]
      exact ⟨e1, e2⟩

lemma zip_map_getD (samples : List ℚ) (W : List (List ℚ)) (j : ℕ) :
    samples.zip (W.map (fun r => r.getD j 0))
      = (samples.zip W).map (fun p => (p.1, p.2.getD j 0)) := by
  induction samples generalizing W with
  | nil => simp
  | cons s ss ih =>
    cases W with
    | nil => simp
    | cons r rs =>
      simp only [List.map_cons, List.zip_cons_cons]
      rw [ih rs]

lemma col_replicate_init (bins M j : ℕ) :
    col (List.replicate bins (List.replicate M 0)) j = List.replicate bins 0 := by
  simp only [col, List.map_replicate, replicate_zero_getD]

/-- C8: for every sample array, bin specification, flow flag and weight
matrix whose rows all have `M` entries, column `j < M` of the multi-weight
kernel's counts and sum-of-squared-weights (hence of its error matrix,
obtained by entrywise square root) equals the counts and
sum-of-squared-weights (resp. error array) of an independent single-weight
call on the same samples and weight column `j`. -/
theorem C8_multiweight_column_equivalence :
    ∀ (samples : List ℚ) (W : List (List ℚ)) (bins M : ℕ) (lo hi : ℚ)
      (flow : Bool) (j : ℕ),
      (∀ r ∈ W, r.length = M) → j < M →
      col (bin_multiweighted samples W bins M lo hi flow).1 j
          = (bin_weighted samples (W.map (fun r => r.getD j 0)) bins lo hi flow).1
      ∧ col (bin_multiweighted samples W bins M lo hi flow).2 j
          = (bin_weighted samples (W.map (fun r => r.getD j 0)) bins lo hi flow).2
      ∧ (col (bin_multiweighted samples W bins M lo hi flow).2 j).map
            (fun (q : ℚ) => Real.sqrt (q : ℝ))
          = ((bin_weighted samples (W.map (fun r => r.getD j 0)) bins lo hi flow).2).map
            (fun (q : ℚ) => Real.sqrt (q : ℝ)) := by
  intro samples W bins M lo hi flow j hW hj
  have hps : ∀ p ∈ samples.zip W, p.2.length = M := by
    intro p hp
    exact hW p.2 (List.of_mem_zip hp).2
  have hinit : ∀ r ∈ List.replicate bins (List.replicate M (0 : ℚ)), r.length = M := by
    intro r hr
    rw [List.eq_of_mem_replicate hr]
    simp
  obtain ⟨e1, e2⟩ := foldl_mstep_col bins M j lo hi flow hj (samples.zip W)
    (List.replicate bins (List.replicate M 0)) (List.replicate bins (List.replicate M 0))
    hinit hinit hps
  rw [col_replicate_init] at e1 e2
  have hsingle : bin_weighted samples (W.map (fun r => r.getD j 0)) bins lo hi flow
      = (samples.zip W).foldl (fun acc p => wstep bins lo hi flow acc (p.1, p.2.getD j 0))
          (List.replicate bins 0, List.replicate bins 0) := by
    unfold bin_weighted
    rw [zip_map_getD, List.foldl_map]
  rw [hsingle]
  unfold bin_multiweighted
  exact ⟨e1, e2, by rw [e2]⟩

/-- C8 witness: the spec's concrete scenario 4 — samples `[1, 1]`,
weights `[[2, 10], [3, 20]]`, one bin over `(0, 2)`: column 1 of the
multi-weight result equals the single-weight result on weights
`[10, 20]`. -/
theorem C8_witness :
    (∀ r ∈ ([[2, 10], [3, 20]] : List (List ℚ)), r.length = 2)
    ∧ col (bin_multiweighted [1, 1] [[2, 10], [3, 20]] 1 2 0 2 false).1 1
        = (bin_weighted [1, 1] (([[2, 10], [3, 20]] : List (List ℚ)).map
            (fun r => r.getD 1 0)) 1 0 2 false).1
    ∧ col (bin_multiweighted [1, 1] [[2, 10], [3, 20]] 1 2 0 2 false).2 1
        = (bin_weighted [1, 1] (([[2, 10], [3, 20]] : List (List ℚ)).map
            (fun r => r.getD 1 0)) 1 0 2 false).2 := by
  have hrows : ∀ r ∈ ([[2, 10], [3, 20]] : List (List ℚ)), r.length = 2 := by
    intro r hr
    simp only [List.mem_cons, List.not_mem_nil, or_false] at hr
    rcases hr with rfl | rfl <;> simp
  have h := C8_multiweight_column_equivalence [1, 1] [[2, 10], [3, 20]] 1 2 0 2 false 1
    hrows (by omega)
  exact ⟨hrows, h.1, h.2.1⟩
